import Mathlib

/-!
Verification of `image_to_c_array.py` (shriram-m/image-to-c-array).

The file shallowly embeds the pixel-format encoding engine, the header
renderer's array-body generation, and the identifier sanitization of
`image_to_c_array.py` into Lean, and proves the specification's claims
about them.  Machine integers are modelled as `Nat` (Python integers are
unbounded; the bit operations `>>`, `<<`, `&`, `|` on non-negative Python
integers coincide with `Nat.shiftRight`, `Nat.shiftLeft`, `Nat.land`,
`Nat.lor`).  String case mapping is modelled with Lean's ASCII
`Char.toUpper`/`Char.toLower`, which agrees with Python's `str.upper` /
`str.lower` on ASCII text.
-/

namespace ImageToCArray

/-- One RGBA pixel as produced by the external decoder: four 8-bit
channels, modelled as unbounded `Nat` (bounds appear as hypotheses). -/
structure Pixel where
  r : Nat
  g : Nat
  b : Nat
  a : Nat
deriving DecidableEq, Repr

/-- Entry of the `FORMATS` table of `image_to_c_array.py` (lines 36-67). -/
structure FormatInfo where
  bytes_per_pixel : Nat
  vg_lite_format : String
  description : String
deriving DecidableEq, Repr

/-- The `FORMATS` dict of `image_to_c_array.py` (lines 36-67), as an
association list in source order. -/
def FORMATS : List (String × FormatInfo) :=
  [ ("rgb565",   ⟨2, "VG_LITE_RGB565",   "RGB565 (16-bit, 5-6-5)"⟩),
    ("bgr565",   ⟨2, "VG_LITE_BGR565",   "BGR565 (16-bit, 5-6-5)"⟩),
    ("argb8888", ⟨4, "VG_LITE_ARGB8888", "ARGB8888 (32-bit, 8-8-8-8)"⟩),
    ("rgba8888", ⟨4, "VG_LITE_RGBA8888", "RGBA8888 (32-bit, 8-8-8-8)"⟩),
    ("rgb888",   ⟨3, "VG_LITE_RGB888",   "RGB888 (24-bit, 8-8-8)"⟩),
    ("bgr888",   ⟨3, "VG_LITE_BGR888",   "BGR888 (24-bit, 8-8-8)"⟩) ]

/-- `rgb_to_rgb565` (lines 70-85). -/
def rgb_to_rgb565 (r g b : Nat) : Nat :=
  let r5 := (r >>> 3) &&& 0x1F
  let g6 := (g >>> 2) &&& 0x3F
  let b5 := (b >>> 3) &&& 0x1F
  (r5 <<< 11) ||| (g6 <<< 5) ||| b5

/-- `rgb_to_bgr565` (lines 88-103). -/
def rgb_to_bgr565 (r g b : Nat) : Nat :=
  let r5 := (r >>> 3) &&& 0x1F
  let g6 := (g >>> 2) &&& 0x3F
  let b5 := (b >>> 3) &&& 0x1F
  (b5 <<< 11) ||| (g6 <<< 5) ||| r5

/-- `convert_image_to_format` (lines 106-189).  The image is the RGBA
pixel grid (row-major list of rows) obtained from the decoder; the Python
`raise ValueError` becomes `Except.error`.  Each `for row / for pixel`
accumulation loop is a `flatMap` over rows and pixels. -/
def convert_image_to_format (pixels : List (List Pixel)) (format_name : String) :
    Except String (List Nat) :=
  if (FORMATS.lookup format_name).isNone then
    Except.error ("Unsupported format: " ++ format_name)
  else
    Except.ok
      (if format_name = "rgb565" then
        pixels.flatMap (fun row => row.flatMap (fun p =>
          let rgb565_val := rgb_to_rgb565 p.r p.g p.b
          [rgb565_val &&& 0xFF, (rgb565_val >>> 8) &&& 0xFF]))
      else if format_name = "bgr565" then
        pixels.flatMap (fun row => row.flatMap (fun p =>
          let bgr565_val := rgb_to_bgr565 p.r p.g p.b
          [bgr565_val &&& 0xFF, (bgr565_val >>> 8) &&& 0xFF]))
      else if format_name = "argb8888" then
        pixels.flatMap (fun row => row.flatMap (fun p => [p.a, p.r, p.g, p.b]))
      else if format_name = "rgba8888" then
        pixels.flatMap (fun row => row.flatMap (fun p => [p.r, p.g, p.b, p.a]))
      else if format_name = "rgb888" then
        pixels.flatMap (fun row => row.flatMap (fun p => [p.r, p.g, p.b]))
      else if format_name = "bgr888" then
        pixels.flatMap (fun row => row.flatMap (fun p => [p.b, p.g, p.r]))
      else [])

/-- The identifiers of the six supported formats, in table order. -/
def supported_formats : List String :=
  ["rgb565", "bgr565", "argb8888", "rgba8888", "rgb888", "bgr888"]

/-! ## Header renderer (`generate_c_header`, lines 191-261)

Only the computational parts are embedded: the derived macro arithmetic,
the identifier sanitization, and the array-body text generation loop
(lines 245-255).  The surrounding literal template text does not bear on
any claim. -/

/-- Value of the `_IMG_STRIDE` macro (line 238): width × bytesPerPixel. -/
def img_stride (width bytes_per_pixel : Nat) : Nat :=
  width * bytes_per_pixel

/-- Value of the `_IMG_PIXEL_DATA_SIZE` macro (line 241):
width × height × bytesPerPixel. -/
def img_pixel_data_size (width height bytes_per_pixel : Nat) : Nat :=
  width * height * bytes_per_pixel

/-- Uppercase hexadecimal digit for `d < 16`, as produced by Python's
`X` format conversion. -/
def hexDigitChar (d : Nat) : Char :=
  if d < 10 then Char.ofNat (48 + d) else Char.ofNat (55 + d)

/-- Little-endian digit list of the uppercase hexadecimal numeral of `n`
(one digit for `n < 16`, as Python's `format(n, 'X')`). -/
def natToHexRev (n : Nat) : List Char :=
  if h : n < 16 then [hexDigitChar n]
  else hexDigitChar (n % 16) :: natToHexRev (n / 16)
decreasing_by exact Nat.div_lt_self (by omega) (by omega)

/-- Python `f"{byte:02X}"` (line 250): uppercase hexadecimal, zero-padded
on the left to at least two digits. -/
def format02X (byte : Nat) : String :=
  let digits := (natToHexRev byte).reverse
  ⟨List.replicate (2 - digits.length) '0' ++ digits⟩

/-- One rendered array element, Python `f"0x{byte:02X}"` (line 250). -/
def hexToken (byte : Nat) : String :=
  "0x" ++ format02X byte

/-- The slices `byte_data[i:i+n]` for `i in range(0, len(byte_data), n)`
(line 248).  Python's `range` with step `0` raises `ValueError`; that case
(`n = 0`) is modelled as `[]` and is unreachable from `generate_c_header`,
whose step is `width * bytes_per_pixel` with `bytes_per_pixel ≥ 2`. -/
def chunkBytes (n : Nat) : List Nat → List (List Nat)
  | [] => []
  | x :: xs =>
    if n = 0 then []
    else (x :: xs).take n :: chunkBytes n ((x :: xs).drop n)
termination_by l => l.length
decreasing_by simp; omega

/-- `", ".join(hex_values)` for one output line (lines 253/255). -/
def renderRow (line_data : List Nat) : String :=
  String.intercalate ", " (line_data.map hexToken)

/-- The array-body text accumulated by the loop of lines 248-255: the
first chunk is preceded by `"\n    "`, every later chunk by `",\n    "`. -/
def renderBody (num_bytes_in_row : Nat) (byte_data : List Nat) : String :=
  match chunkBytes num_bytes_in_row byte_data with
  | [] => ""
  | c :: cs =>
    "\n    " ++ renderRow c ++
      String.join (cs.map (fun c => ",\n    " ++ renderRow c))

/-! ## Identifier sanitization (lines 216-218)

`macro_prefix = base_name.upper().replace('-', '_').replace(' ', '_')`
`array_name  = base_name.lower().replace('-', '_').replace(' ', '_')`

Python's `str.upper`/`str.lower`/single-character `str.replace` act
independently on each character; they are modelled as maps over the
string's characters, with Lean's ASCII case mapping. -/

/-- Character map over a string. -/
def strMap (f : Char → Char) (s : String) : String :=
  ⟨s.data.map f⟩

/-- Replacement on one character. -/
def replChar (old new c : Char) : Char :=
  if c = old then new else c

/-- Python `s.replace(old, new)` for single characters `old`, `new`. -/
def py_replace (old new : Char) (s : String) : String :=
  strMap (replChar old new) s

/-- One character of Python's `str.upper()`.  Python applies the full
Unicode uppercase mapping, under which a character may expand to several
characters: `'ß'.upper() = 'SS'` (and `'ẞ'.upper() = 'ẞ'`).  The table
here is exact on ASCII and on the sharp-s characters `'ß'` (U+00DF) and
`'ẞ'` (U+1E9E); other characters are kept unchanged, which matches
Python for every caseless character (digits, punctuation, space,
hyphen, underscore, ...).  No theorem below depends on the behaviour at
any other cased non-ASCII letter. -/
def py_upper_char (c : Char) : List Char :=
  if c = 'ß' then ['S', 'S'] else [Char.toUpper c]

/-- One character of Python's `str.lower()`: exact on ASCII and on the
sharp-s characters (`'ẞ'.lower() = 'ß'`, `'ß'.lower() = 'ß'`); other
characters are kept unchanged, which matches Python for every caseless
character. -/
def py_lower_char (c : Char) : List Char :=
  if c = 'ẞ' then ['ß'] else [Char.toLower c]

/-- Python `s.upper()`: concatenation of the per-character uppercase
expansions. -/
def py_upper (s : String) : String :=
  ⟨s.data.flatMap py_upper_char⟩

/-- Python `s.lower()`: concatenation of the per-character lowercase
expansions. -/
def py_lower (s : String) : String :=
  ⟨s.data.flatMap py_lower_char⟩

/-- A character in the 7-bit ASCII range, where the modelled case
mapping is exact. -/
def isASCIIChar (c : Char) : Bool :=
  c.toNat < 128

/-- `macro_prefix` of `generate_c_header` (line 217). -/
def macro_prefix_str (base_name : String) : String :=
  py_replace ' ' '_' (py_replace '-' '_' (py_upper base_name))

/-- `array_name` of `generate_c_header` (line 218). -/
def array_name (base_name : String) : String :=
  py_replace ' ' '_' (py_replace '-' '_' (py_lower base_name))

/-- The sanitizer's paired outputs (spec §4.3): macro prefix and array
name derived from the raw base name. -/
def sanitize (base_name : String) : String × String :=
  (macro_prefix_str base_name, array_name base_name)

/-- A character that may appear in an uppercase hexadecimal numeral. -/
def isUpperHexDigit (c : Char) : Bool :=
  ('0' ≤ c && c ≤ '9') || ('A' ≤ c && c ≤ 'F')

/-! ## Helper lemmas: bit arithmetic -/

/-- Shifted-or with a disjoint low part is addition. -/
theorem shiftLeft_lor_eq_add (a : Nat) : ∀ n b, b < 2 ^ n → (a <<< n) ||| b = a * 2 ^ n + b := by
  intro n
  induction n with
  | zero =>
    intro b hb
    have hb0 : b = 0 := by omega
    subst hb0
    simp [Nat.shiftLeft_eq]
  | succ n ih =>
    intro b hb
    have hdec : Nat.bit (b.testBit 0) (b >>> 1) = b := Nat.bit_testBit_zero_shiftRight_one b
    have h1 : a <<< (n + 1) = Nat.bit false (a <<< n) := by
      simp [Nat.bit_val, Nat.shiftLeft_eq, pow_succ]
      ring
    have hb2 : b >>> 1 < 2 ^ n := by
      rw [Nat.shiftRight_eq_div_pow]
      rw [pow_succ] at hb
      omega
    calc a <<< (n + 1) ||| b
        = Nat.bit false (a <<< n) ||| Nat.bit (b.testBit 0) (b >>> 1) := by rw [h1, hdec]
      _ = Nat.bit (false || b.testBit 0) ((a <<< n) ||| (b >>> 1)) :=
          Nat.lor_bit false (a <<< n) (b.testBit 0) (b >>> 1)
      _ = Nat.bit (b.testBit 0) (a * 2 ^ n + b >>> 1) := by rw [ih _ hb2]; simp
      _ = a * 2 ^ (n + 1) + b := by
          rw [Nat.bit_val]
          have hv := Nat.bit_val (b.testBit 0) (b >>> 1)
          rw [hdec] at hv
          have h2 : a * 2 ^ (n + 1) = 2 * (a * 2 ^ n) := by ring
          rw [h2]
          omega

/-- The 5-6-5 pack of three in-range fields, as plain arithmetic. -/
theorem pack565_eq (x y z : Nat) (hy : y < 64) (hz : z < 32) :
    (x <<< 11) ||| (y <<< 5) ||| z = x * 2048 + y * 32 + z := by
  have h1 : (y <<< 5) ||| z = y * 32 + z := by
    have h := shiftLeft_lor_eq_add y 5 z (by norm_num; omega)
    norm_num at h
    exact h
  rw [Nat.lor_assoc, h1]
  have h2 := shiftLeft_lor_eq_add x 11 (y * 32 + z) (by norm_num; omega)
  norm_num at h2
  rw [h2]
  ring

/-- Masking with an all-ones low mask is a remainder. -/
theorem mask_mod (x k : Nat) : x &&& (2 ^ k - 1) = x % 2 ^ k :=
  Nat.and_pow_two_sub_one_eq_mod x k

/-- `rgb_to_rgb565` as plain arithmetic, with no range assumptions: the
`& 0x1F` / `& 0x3F` masks become remainders. -/
theorem rgb_to_rgb565_eq_mod (r g b : Nat) :
    rgb_to_rgb565 r g b =
      ((r >>> 3) % 32) * 2048 + ((g >>> 2) % 64) * 32 + (b >>> 3) % 32 := by
  unfold rgb_to_rgb565
  have h1 : (r >>> 3) &&& 0x1F = (r >>> 3) % 32 := by
    have := mask_mod (r >>> 3) 5; norm_num at this; exact this
  have h2 : (g >>> 2) &&& 0x3F = (g >>> 2) % 64 := by
    have := mask_mod (g >>> 2) 6; norm_num at this; exact this
  have h3 : (b >>> 3) &&& 0x1F = (b >>> 3) % 32 := by
    have := mask_mod (b >>> 3) 5; norm_num at this; exact this
  simp only [h1, h2, h3]
  exact pack565_eq _ _ _ (Nat.mod_lt _ (by norm_num)) (Nat.mod_lt _ (by norm_num))

/-- `rgb_to_bgr565` as plain arithmetic. -/
theorem rgb_to_bgr565_eq_mod (r g b : Nat) :
    rgb_to_bgr565 r g b =
      ((b >>> 3) % 32) * 2048 + ((g >>> 2) % 64) * 32 + (r >>> 3) % 32 := by
  unfold rgb_to_bgr565
  have h1 : (r >>> 3) &&& 0x1F = (r >>> 3) % 32 := by
    have := mask_mod (r >>> 3) 5; norm_num at this; exact this
  have h2 : (g >>> 2) &&& 0x3F = (g >>> 2) % 64 := by
    have := mask_mod (g >>> 2) 6; norm_num at this; exact this
  have h3 : (b >>> 3) &&& 0x1F = (b >>> 3) % 32 := by
    have := mask_mod (b >>> 3) 5; norm_num at this; exact this
  simp only [h1, h2, h3]
  exact pack565_eq _ _ _ (Nat.mod_lt _ (by norm_num)) (Nat.mod_lt _ (by norm_num))

/-- Shifting right by 3 is division by 8. -/
theorem shiftRight3_eq (r : Nat) : r >>> 3 = r / 8 := by
  rw [Nat.shiftRight_eq_div_pow]

/-- Shifting right by 2 is division by 4. -/
theorem shiftRight2_eq (g : Nat) : g >>> 2 = g / 4 := by
  rw [Nat.shiftRight_eq_div_pow]

/-- For 8-bit channels the masks of `rgb_to_rgb565` are no-ops. -/
theorem rgb_to_rgb565_eq (r g b : Nat) (hr : r ≤ 255) (hg : g ≤ 255) (hb : b ≤ 255) :
    rgb_to_rgb565 r g b = (r / 8) * 2048 + (g / 4) * 32 + b / 8 := by
  rw [rgb_to_rgb565_eq_mod, shiftRight3_eq, shiftRight2_eq, shiftRight3_eq]
  have h1 : r / 8 % 32 = r / 8 := Nat.mod_eq_of_lt (by omega)
  have h2 : g / 4 % 64 = g / 4 := Nat.mod_eq_of_lt (by omega)
  have h3 : b / 8 % 32 = b / 8 := Nat.mod_eq_of_lt (by omega)
  rw [h1, h2, h3]

/-- For 8-bit channels the masks of `rgb_to_bgr565` are no-ops. -/
theorem rgb_to_bgr565_eq (r g b : Nat) (hr : r ≤ 255) (hg : g ≤ 255) (hb : b ≤ 255) :
    rgb_to_bgr565 r g b = (b / 8) * 2048 + (g / 4) * 32 + r / 8 := by
  rw [rgb_to_bgr565_eq_mod, shiftRight3_eq, shiftRight2_eq, shiftRight3_eq]
  have h1 : r / 8 % 32 = r / 8 := Nat.mod_eq_of_lt (by omega)
  have h2 : g / 4 % 64 = g / 4 := Nat.mod_eq_of_lt (by omega)
  have h3 : b / 8 % 32 = b / 8 := Nat.mod_eq_of_lt (by omega)
  rw [h1, h2, h3]

/-- The packed value always fits in 16 bits. -/
theorem rgb_to_rgb565_lt (r g b : Nat) : rgb_to_rgb565 r g b < 65536 := by
  rw [rgb_to_rgb565_eq_mod]
  have h1 : (r >>> 3) % 32 < 32 := Nat.mod_lt _ (by norm_num)
  have h2 : (g >>> 2) % 64 < 64 := Nat.mod_lt _ (by norm_num)
  have h3 : (b >>> 3) % 32 < 32 := Nat.mod_lt _ (by norm_num)
  omega

/-- The packed value always fits in 16 bits. -/
theorem rgb_to_bgr565_lt (r g b : Nat) : rgb_to_bgr565 r g b < 65536 := by
  rw [rgb_to_bgr565_eq_mod]
  have h1 : (r >>> 3) % 32 < 32 := Nat.mod_lt _ (by norm_num)
  have h2 : (g >>> 2) % 64 < 64 := Nat.mod_lt _ (by norm_num)
  have h3 : (b >>> 3) % 32 < 32 := Nat.mod_lt _ (by norm_num)
  omega

/-- Low byte of a word. -/
theorem low_byte_eq (v : Nat) : v &&& 0xFF = v % 256 := by
  have := mask_mod v 8; norm_num at this; exact this

/-- High byte of a 16-bit word. -/
theorem high_byte_eq (v : Nat) (hv : v < 65536) : (v >>> 8) &&& 0xFF = v / 256 := by
  rw [Nat.shiftRight_eq_div_pow]
  norm_num
  have := mask_mod (v / 256) 8
  norm_num at this
  rw [this]
  exact Nat.mod_eq_of_lt (by omega)

/-! ## Helper lemmas: lists, chunking, intercalation -/

/-- Length of a `flatMap` whose function emits `k` elements per input. -/
theorem flatMap_const_length {α : Type} (l : List α) (f : α → List Nat) (k : Nat)
    (hf : ∀ p ∈ l, (f p).length = k) : (l.flatMap f).length = l.length * k := by
  induction l with
  | nil => simp
  | cons x xs ih =>
    simp only [List.flatMap_cons, List.length_append, List.length_cons]
    rw [hf x (by simp), ih (fun p hp => hf p (by simp [hp]))]
    ring

/-- Length of a grid `flatMap`: `h` rows of `w` pixels, `k` bytes per
pixel, gives `w * h * k` bytes. -/
theorem grid_flatMap_length (pixels : List (List Pixel)) (f : Pixel → List Nat)
    (k w : Nat) (hf : ∀ p, (f p).length = k) (hw : ∀ row ∈ pixels, row.length = w) :
    (pixels.flatMap (fun row => row.flatMap f)).length = w * pixels.length * k := by
  rw [flatMap_const_length pixels _ (w * k) (fun row hrow => by
    rw [flatMap_const_length row f k (fun p _ => hf p), hw row hrow])]
  ring

/-- Chunking then flattening returns the data unchanged: the renderer
emits every input byte, whatever the data length. -/
theorem chunkBytes_flatten (n : Nat) (hn : 1 ≤ n) (data : List Nat) :
    (chunkBytes n data).flatten = data := by
  match data with
  | [] => simp [chunkBytes]
  | x :: xs =>
    rw [chunkBytes]
    have hn0 : ¬ n = 0 := by omega
    simp only [hn0, if_false, List.flatten_cons]
    rw [chunkBytes_flatten n hn ((x :: xs).drop n)]
    exact List.take_append_drop n (x :: xs)
termination_by data.length
decreasing_by simp; omega

/-- Chunking a list of length `h * n` yields exactly `h` chunks. -/
theorem chunkBytes_length (n : Nat) (hn : 1 ≤ n) :
    ∀ (h : Nat) (data : List Nat), data.length = h * n → (chunkBytes n data).length = h := by
  intro h
  induction h with
  | zero =>
    intro data hlen
    have : data = [] := List.eq_nil_of_length_eq_zero (by omega)
    subst this
    simp [chunkBytes]
  | succ h ih =>
    intro data hlen
    rw [Nat.succ_mul] at hlen
    match data with
    | [] => simp at hlen; omega
    | x :: xs =>
      rw [chunkBytes]
      have hn0 : ¬ n = 0 := by omega
      simp only [hn0, if_false, List.length_cons]
      rw [ih ((x :: xs).drop n) (by simp; rw [List.length_cons] at hlen; omega)]

/-- Every chunk of a list of length `h * n` has length exactly `n`:
no partial final row. -/
theorem chunkBytes_forall_length (n : Nat) (hn : 1 ≤ n) :
    ∀ (h : Nat) (data : List Nat), data.length = h * n →
      ∀ c ∈ chunkBytes n data, c.length = n := by
  intro h
  induction h with
  | zero =>
    intro data hlen c hc
    have : data = [] := List.eq_nil_of_length_eq_zero (by omega)
    subst this
    simp [chunkBytes] at hc
  | succ h ih =>
    intro data hlen c hc
    rw [Nat.succ_mul] at hlen
    match data with
    | [] => simp at hlen; omega
    | x :: xs =>
      rw [chunkBytes] at hc
      have hn0 : ¬ n = 0 := by omega
      simp only [hn0, if_false, List.mem_cons] at hc
      rcases hc with hc | hc
      · subst hc
        simp only [List.length_take, List.length_cons]
        rw [List.length_cons] at hlen
        omega
      · exact ih ((x :: xs).drop n) (by simp; rw [List.length_cons] at hlen; omega) c hc

/-- `List.foldl` of string append distributes over the initial value. -/
theorem foldl_append_init (init : String) (l : List String) :
    List.foldl (fun r s => r ++ s) init l = init ++ List.foldl (fun r s => r ++ s) "" l := by
  induction l generalizing init with
  | nil => simp
  | cons x xs ih =>
    simp only [List.foldl_cons]
    rw [ih (init ++ x), ih ("" ++ x)]
    simp [String.append_assoc]

/-- Unfolding of `String.intercalate.go`. -/
theorem intercalate_go_spec (a s : String) (l : List String) :
    String.intercalate.go a s l = a ++ String.join (l.map (fun y => s ++ y)) := by
  induction l generalizing a with
  | nil => simp [String.intercalate.go, String.join]
  | cons y ys ih =>
    rw [String.intercalate.go, ih]
    simp only [String.join, List.map_cons, List.foldl_cons]
    rw [foldl_append_init ("" ++ (s ++ y))]
    simp [String.append_assoc]

/-- `String.intercalate` as head plus separator-prefixed tail. -/
theorem intercalate_cons_join (s x : String) (l : List String) :
    String.intercalate s (x :: l) = x ++ String.join (l.map (fun y => s ++ y)) := by
  rw [String.intercalate, intercalate_go_spec]

/-- The renderer's accumulation loop produces the intercalation of the
rendered rows: one text line per chunk, rows separated by `",\n    "`. -/
theorem renderBody_eq_intercalate (stride : Nat) (data : List Nat)
    (hne : chunkBytes stride data ≠ []) :
    renderBody stride data =
      "\n    " ++ String.intercalate ",\n    " ((chunkBytes stride data).map renderRow) := by
  unfold renderBody
  match hch : chunkBytes stride data with
  | [] => exact absurd hch hne
  | c :: cs =>
    simp only [List.map_cons]
    rw [intercalate_cons_join]
    rw [List.map_map]
    rfl

/-! ## Helper lemmas: characters and case mapping -/

/-- `Char.ofNat` of a small scalar value decodes back to it. -/
theorem toNat_ofNat_valid (n : Nat) (h : n < 55296) : (Char.ofNat n).toNat = n := by
  have hv : n.isValidChar := Or.inl h
  simp [Char.ofNat, hv, Char.ofNatAux, Char.toNat, UInt32.toNat, BitVec.toNat_ofNatLt]

/-- Characters with equal scalar values are equal. -/
theorem char_toNat_inj {c d : Char} (h : c.toNat = d.toNat) : c = d := by
  apply Char.eq_of_val_eq
  apply UInt32.toNat.inj
  exact h

/-- Scalar value of `Char.toLower`. -/
theorem toLower_toNat (c : Char) :
    (Char.toLower c).toNat =
      if c.toNat ≥ 65 ∧ c.toNat ≤ 90 then c.toNat + 32 else c.toNat := by
  have hdef : Char.toLower c =
      if c.toNat ≥ 65 ∧ c.toNat ≤ 90 then Char.ofNat (c.toNat + 32) else c := rfl
  rw [hdef]
  split_ifs with h
  · exact toNat_ofNat_valid (c.toNat + 32) (by omega)
  · rfl

/-- Scalar value of `Char.toUpper`. -/
theorem toUpper_toNat (c : Char) :
    (Char.toUpper c).toNat =
      if c.toNat ≥ 97 ∧ c.toNat ≤ 122 then c.toNat - 32 else c.toNat := by
  have hdef : Char.toUpper c =
      if c.toNat ≥ 97 ∧ c.toNat ≤ 122 then Char.ofNat (c.toNat - 32) else c := rfl
  rw [hdef]
  split_ifs with h
  · exact toNat_ofNat_valid (c.toNat - 32) (by omega)
  · rfl

/-- Scalar value of a single-character replacement. -/
theorem replChar_toNat (old new c : Char) :
    (replChar old new c).toNat =
      if c.toNat = old.toNat then new.toNat else c.toNat := by
  unfold replChar
  split
  · next h => subst h; simp
  · next h =>
    have : ¬ c.toNat = old.toNat := fun hh => h (char_toNat_inj hh)
    simp [this]

/-- Upper-casing after lower-casing is upper-casing. -/
theorem toUpper_toLower (c : Char) :
    Char.toUpper (Char.toLower c) = Char.toUpper c := by
  apply char_toNat_inj
  simp only [toUpper_toNat, toLower_toNat]
  split_ifs <;> omega

/-- Lower-casing after upper-casing is lower-casing. -/
theorem toLower_toUpper (c : Char) :
    Char.toLower (Char.toUpper c) = Char.toLower c := by
  apply char_toNat_inj
  simp only [toUpper_toNat, toLower_toNat]
  split_ifs <;> omega

/-- `Char.toUpper` is idempotent. -/
theorem toUpper_toUpper (c : Char) :
    Char.toUpper (Char.toUpper c) = Char.toUpper c := by
  apply char_toNat_inj
  simp only [toUpper_toNat]
  split_ifs <;> omega

/-- `Char.toLower` is idempotent. -/
theorem toLower_toLower (c : Char) :
    Char.toLower (Char.toLower c) = Char.toLower c := by
  apply char_toNat_inj
  simp only [toLower_toNat]
  split_ifs <;> omega

/-- Scalar value of the hyphen. -/
theorem dash_toNat : ('-' : Char).toNat = 45 := rfl

/-- Scalar value of the space. -/
theorem space_toNat : (' ' : Char).toNat = 32 := rfl

/-- Scalar value of the underscore. -/
theorem underscore_toNat : ('_' : Char).toNat = 95 := rfl

/-- The per-character sanitization of the macro prefix equals upper-casing
the per-character sanitization of the array name. -/
theorem sanitizeChar_macro_eq_upper_array (c : Char) :
    replChar ' ' '_' (replChar '-' '_' (Char.toUpper c)) =
      Char.toUpper (replChar ' ' '_' (replChar '-' '_' (Char.toLower c))) := by
  apply char_toNat_inj
  simp only [replChar_toNat, toUpper_toNat, toLower_toNat, dash_toNat, space_toNat,
    underscore_toNat]
  split_ifs <;> omega

/-- Array-name sanitization is idempotent per character. -/
theorem sanitizeChar_array_array (c : Char) :
    replChar ' ' '_' (replChar '-' '_'
        (Char.toLower (replChar ' ' '_' (replChar '-' '_' (Char.toLower c))))) =
      replChar ' ' '_' (replChar '-' '_' (Char.toLower c)) := by
  apply char_toNat_inj
  simp only [replChar_toNat, toLower_toNat, dash_toNat, space_toNat, underscore_toNat]
  split_ifs <;> omega

/-- Macro-prefix sanitization of an already array-sanitized character
equals macro-prefix sanitization of the original. -/
theorem sanitizeChar_macro_array (c : Char) :
    replChar ' ' '_' (replChar '-' '_'
        (Char.toUpper (replChar ' ' '_' (replChar '-' '_' (Char.toLower c))))) =
      replChar ' ' '_' (replChar '-' '_' (Char.toUpper c)) := by
  apply char_toNat_inj
  simp only [replChar_toNat, toUpper_toNat, toLower_toNat, dash_toNat, space_toNat,
    underscore_toNat]
  split_ifs <;> omega

/-- Macro-prefix sanitization is idempotent per character. -/
theorem sanitizeChar_macroPre_idem (c : Char) :
    replChar ' ' '_' (replChar '-' '_'
        (Char.toUpper (replChar ' ' '_' (replChar '-' '_' (Char.toUpper c))))) =
      replChar ' ' '_' (replChar '-' '_' (Char.toUpper c)) := by
  apply char_toNat_inj
  simp only [replChar_toNat, toUpper_toNat, dash_toNat, space_toNat, underscore_toNat]
  split_ifs <;> omega

/-- Array-name sanitization of an already macro-sanitized character
equals array-name sanitization of the original. -/
theorem sanitizeChar_array_of_macroPre (c : Char) :
    replChar ' ' '_' (replChar '-' '_'
        (Char.toLower (replChar ' ' '_' (replChar '-' '_' (Char.toUpper c))))) =
      replChar ' ' '_' (replChar '-' '_' (Char.toLower c)) := by
  apply char_toNat_inj
  simp only [replChar_toNat, toUpper_toNat, toLower_toNat, dash_toNat, space_toNat,
    underscore_toNat]
  split_ifs <;> omega

/-- Composing two character maps over a string. -/
theorem strMap_strMap (f g : Char → Char) (s : String) :
    strMap f (strMap g s) = strMap (fun c => f (g c)) s := by
  unfold strMap
  exact congrArg String.mk (List.map_map f g s.data)

/-- Pointwise equal character maps give equal strings. -/
theorem strMap_congr {f g : Char → Char} (h : ∀ c, f c = g c) (s : String) :
    strMap f s = strMap g s :=
  congrArg String.mk (List.map_congr_left (fun c _ => h c))

/-! ## Helper lemmas: branch dispatch of the encoder -/

/-- The `rgb565` branch of `convert_image_to_format`. -/
theorem convert_rgb565_eq (pixels : List (List Pixel)) :
    convert_image_to_format pixels "rgb565" =
      Except.ok (pixels.flatMap (fun row => row.flatMap (fun p =>
        [rgb_to_rgb565 p.r p.g p.b &&& 0xFF,
         (rgb_to_rgb565 p.r p.g p.b >>> 8) &&& 0xFF]))) := rfl

/-- The `bgr565` branch of `convert_image_to_format`. -/
theorem convert_bgr565_eq (pixels : List (List Pixel)) :
    convert_image_to_format pixels "bgr565" =
      Except.ok (pixels.flatMap (fun row => row.flatMap (fun p =>
        [rgb_to_bgr565 p.r p.g p.b &&& 0xFF,
         (rgb_to_bgr565 p.r p.g p.b >>> 8) &&& 0xFF]))) := rfl

/-- The `argb8888` branch of `convert_image_to_format`. -/
theorem convert_argb8888_eq (pixels : List (List Pixel)) :
    convert_image_to_format pixels "argb8888" =
      Except.ok (pixels.flatMap (fun row => row.flatMap (fun p =>
        [p.a, p.r, p.g, p.b]))) := rfl

/-- The `rgba8888` branch of `convert_image_to_format`. -/
theorem convert_rgba8888_eq (pixels : List (List Pixel)) :
    convert_image_to_format pixels "rgba8888" =
      Except.ok (pixels.flatMap (fun row => row.flatMap (fun p =>
        [p.r, p.g, p.b, p.a]))) := rfl

/-- The `rgb888` branch of `convert_image_to_format`. -/
theorem convert_rgb888_eq (pixels : List (List Pixel)) :
    convert_image_to_format pixels "rgb888" =
      Except.ok (pixels.flatMap (fun row => row.flatMap (fun p =>
        [p.r, p.g, p.b]))) := rfl

/-- The `bgr888` branch of `convert_image_to_format`. -/
theorem convert_bgr888_eq (pixels : List (List Pixel)) :
    convert_image_to_format pixels "bgr888" =
      Except.ok (pixels.flatMap (fun row => row.flatMap (fun p =>
        [p.b, p.g, p.r]))) := rfl

/-- The two emitted bytes of the `rgb565` branch, compared with the
mask-free packing formula of the spec. -/
theorem rgb565_bytes_eq (r g b : Nat) (hr : r ≤ 255) (hg : g ≤ 255) (hb : b ≤ 255) :
    rgb_to_rgb565 r g b &&& 0xFF =
      (((r >>> 3) <<< 11) ||| ((g >>> 2) <<< 5) ||| (b >>> 3)) % 256 ∧
    (rgb_to_rgb565 r g b >>> 8) &&& 0xFF =
      (((r >>> 3) <<< 11) ||| ((g >>> 2) <<< 5) ||| (b >>> 3)) / 256 := by
  have hspec : ((r >>> 3) <<< 11) ||| ((g >>> 2) <<< 5) ||| (b >>> 3) =
      (r / 8) * 2048 + (g / 4) * 32 + b / 8 := by
    simp only [shiftRight3_eq, shiftRight2_eq]
    exact pack565_eq _ _ _ (by omega) (by omega)
  have hv := rgb_to_rgb565_eq r g b hr hg hb
  constructor
  · rw [low_byte_eq, hv, hspec]
  · rw [high_byte_eq _ (rgb_to_rgb565_lt r g b), hv, hspec]

/-- The two emitted bytes of the `bgr565` branch, compared with the
mask-free packing formula of the spec. -/
theorem bgr565_bytes_eq (r g b : Nat) (hr : r ≤ 255) (hg : g ≤ 255) (hb : b ≤ 255) :
    rgb_to_bgr565 r g b &&& 0xFF =
      (((b >>> 3) <<< 11) ||| ((g >>> 2) <<< 5) ||| (r >>> 3)) % 256 ∧
    (rgb_to_bgr565 r g b >>> 8) &&& 0xFF =
      (((b >>> 3) <<< 11) ||| ((g >>> 2) <<< 5) ||| (r >>> 3)) / 256 := by
  have hspec : ((b >>> 3) <<< 11) ||| ((g >>> 2) <<< 5) ||| (r >>> 3) =
      (b / 8) * 2048 + (g / 4) * 32 + r / 8 := by
    simp only [shiftRight3_eq, shiftRight2_eq]
    exact pack565_eq _ _ _ (by omega) (by omega)
  have hv := rgb_to_bgr565_eq r g b hr hg hb
  constructor
  · rw [low_byte_eq, hv, hspec]
  · rw [high_byte_eq _ (rgb_to_bgr565_lt r g b), hv, hspec]

/-! ## Helper lemmas: hex formatting -/

/-- Two-digit rendering of a byte below 256: high nibble, then low
nibble. -/
theorem format02X_byte (b : Nat) (hb : b < 256) :
    format02X b = ⟨[hexDigitChar (b / 16), hexDigitChar (b % 16)]⟩ := by
  by_cases h16 : b < 16
  · have hrev : natToHexRev b = [hexDigitChar b] := by
      rw [natToHexRev]; simp [h16]
    have hdiv : b / 16 = 0 := by omega
    have hmod : b % 16 = b := by omega
    rw [format02X]
    simp only [hrev, hdiv, hmod, List.reverse_cons, List.reverse_nil, List.nil_append,
      List.length_cons, List.length_nil]
    rfl
  · have hd16 : b / 16 < 16 := by omega
    have hrev : natToHexRev b = [hexDigitChar (b % 16), hexDigitChar (b / 16)] := by
      rw [natToHexRev]
      simp only [h16, dite_false]
      rw [natToHexRev]
      simp [hd16]
    rw [format02X]
    simp only [hrev]
    rfl

/-- Hex digits are uppercase-hex characters. -/
theorem hexDigitChar_isUpperHexDigit : ∀ d < 16, isUpperHexDigit (hexDigitChar d) = true := by
  decide

/-- The rendered token of a byte below 256: `0x` plus two uppercase
hexadecimal digits. -/
theorem hexToken_byte (b : Nat) (hb : b < 256) :
    hexToken b = ⟨['0', 'x', hexDigitChar (b / 16), hexDigitChar (b % 16)]⟩ ∧
    (format02X b).length = 2 ∧
    (format02X b).data.all isUpperHexDigit = true := by
  have h := format02X_byte b hb
  refine ⟨?_, ?_, ?_⟩
  · rw [hexToken, h]; rfl
  · rw [h]; rfl
  · rw [h]
    have h1 := hexDigitChar_isUpperHexDigit (b / 16) (by omega)
    have h2 := hexDigitChar_isUpperHexDigit (b % 16) (by omega)
    simp [List.all, h1, h2]


/-- Successful registry lookup: the six possible cases. -/
theorem lookup_cases (f : String) (info : FormatInfo)
    (h : FORMATS.lookup f = some info) :
    (f = "rgb565" ∧ info.bytes_per_pixel = 2) ∨
    (f = "bgr565" ∧ info.bytes_per_pixel = 2) ∨
    (f = "argb8888" ∧ info.bytes_per_pixel = 4) ∨
    (f = "rgba8888" ∧ info.bytes_per_pixel = 4) ∨
    (f = "rgb888" ∧ info.bytes_per_pixel = 3) ∨
    (f = "bgr888" ∧ info.bytes_per_pixel = 3) := by
  by_cases h1 : f = "rgb565"
  · subst h1
    simp [FORMATS, List.lookup] at h
    subst h
    left; exact ⟨rfl, rfl⟩
  by_cases h2 : f = "bgr565"
  · subst h2
    simp [FORMATS, List.lookup] at h
    subst h
    right; left; exact ⟨rfl, rfl⟩
  by_cases h3 : f = "argb8888"
  · subst h3
    simp [FORMATS, List.lookup] at h
    subst h
    right; right; left; exact ⟨rfl, rfl⟩
  by_cases h4 : f = "rgba8888"
  · subst h4
    simp [FORMATS, List.lookup] at h
    subst h
    right; right; right; left; exact ⟨rfl, rfl⟩
  by_cases h5 : f = "rgb888"
  · subst h5
    simp [FORMATS, List.lookup] at h
    subst h
    right; right; right; right; left; exact ⟨rfl, rfl⟩
  by_cases h6 : f = "bgr888"
  · subst h6
    simp [FORMATS, List.lookup] at h
    subst h
    right; right; right; right; right; exact ⟨rfl, rfl⟩
  exfalso
  have e1 : (f == "rgb565") = false := beq_eq_false_iff_ne.mpr h1
  have e2 : (f == "bgr565") = false := beq_eq_false_iff_ne.mpr h2
  have e3 : (f == "argb8888") = false := beq_eq_false_iff_ne.mpr h3
  have e4 : (f == "rgba8888") = false := beq_eq_false_iff_ne.mpr h4
  have e5 : (f == "rgb888") = false := beq_eq_false_iff_ne.mpr h5
  have e6 : (f == "bgr888") = false := beq_eq_false_iff_ne.mpr h6
  simp [FORMATS, List.lookup, e1, e2, e3, e4, e5, e6] at h

/-- The registry lookup fails exactly outside the closed identifier set. -/
theorem lookup_eq_none_iff (f : String) :
    FORMATS.lookup f = none ↔ f ∉ supported_formats := by
  by_cases h1 : f = "rgb565"
  · subst h1; simp [FORMATS, supported_formats, List.lookup]
  by_cases h2 : f = "bgr565"
  · subst h2; simp [FORMATS, supported_formats, List.lookup]
  by_cases h3 : f = "argb8888"
  · subst h3; simp [FORMATS, supported_formats, List.lookup]
  by_cases h4 : f = "rgba8888"
  · subst h4; simp [FORMATS, supported_formats, List.lookup]
  by_cases h5 : f = "rgb888"
  · subst h5; simp [FORMATS, supported_formats, List.lookup]
  by_cases h6 : f = "bgr888"
  · subst h6; simp [FORMATS, supported_formats, List.lookup]
  have e1 : (f == "rgb565") = false := beq_eq_false_iff_ne.mpr h1
  have e2 : (f == "bgr565") = false := beq_eq_false_iff_ne.mpr h2
  have e3 : (f == "argb8888") = false := beq_eq_false_iff_ne.mpr h3
  have e4 : (f == "rgba8888") = false := beq_eq_false_iff_ne.mpr h4
  have e5 : (f == "rgb888") = false := beq_eq_false_iff_ne.mpr h5
  have e6 : (f == "bgr888") = false := beq_eq_false_iff_ne.mpr h6
  simp [FORMATS, supported_formats, List.lookup, e1, e2, e3, e4, e5, e6, h1, h2, h3, h4, h5, h6]

/-- Any grid encodes successfully under every supported format. -/
theorem convert_ok_of_mem (pixels : List (List Pixel)) (f : String)
    (hmem : f ∈ supported_formats) :
    ∃ bytes, convert_image_to_format pixels f = Except.ok bytes := by
  simp [supported_formats] at hmem
  rcases hmem with rfl | rfl | rfl | rfl | rfl | rfl
  · exact ⟨_, convert_rgb565_eq pixels⟩
  · exact ⟨_, convert_bgr565_eq pixels⟩
  · exact ⟨_, convert_argb8888_eq pixels⟩
  · exact ⟨_, convert_rgba8888_eq pixels⟩
  · exact ⟨_, convert_rgb888_eq pixels⟩
  · exact ⟨_, convert_bgr888_eq pixels⟩

/-! ## Claims -/

/-- C1: for every pixel grid of 8-bit RGBA pixels, the `rgb565` encoding
emits, per pixel in row-major order, the 16-bit value
`(R>>3)<<11 ||| (G>>2)<<5 ||| (B>>3)` as two bytes low byte first, and the
`bgr565` encoding emits `(B>>3)<<11 ||| (G>>2)<<5 ||| (R>>3)` likewise;
the alpha channel does not affect the output bytes of either format. -/
theorem claim_C1 (pixels : List (List Pixel))
    (hch : ∀ row ∈ pixels, ∀ p ∈ row, p.r ≤ 255 ∧ p.g ≤ 255 ∧ p.b ≤ 255) :
    (convert_image_to_format pixels "rgb565" =
      Except.ok (pixels.flatMap (fun row => row.flatMap (fun p =>
        [(((p.r >>> 3) <<< 11) ||| ((p.g >>> 2) <<< 5) ||| (p.b >>> 3)) % 256,
         (((p.r >>> 3) <<< 11) ||| ((p.g >>> 2) <<< 5) ||| (p.b >>> 3)) / 256])))) ∧
    (convert_image_to_format pixels "bgr565" =
      Except.ok (pixels.flatMap (fun row => row.flatMap (fun p =>
        [(((p.b >>> 3) <<< 11) ||| ((p.g >>> 2) <<< 5) ||| (p.r >>> 3)) % 256,
         (((p.b >>> 3) <<< 11) ||| ((p.g >>> 2) <<< 5) ||| (p.r >>> 3)) / 256])))) ∧
    (∀ alpha : Pixel → Nat,
      convert_image_to_format
          (pixels.map (fun row => row.map (fun p => ⟨p.r, p.g, p.b, alpha p⟩))) "rgb565" =
        convert_image_to_format pixels "rgb565" ∧
      convert_image_to_format
          (pixels.map (fun row => row.map (fun p => ⟨p.r, p.g, p.b, alpha p⟩))) "bgr565" =
        convert_image_to_format pixels "bgr565") := by
  refine ⟨?_, ?_, ?_⟩
  · rw [convert_rgb565_eq]
    congr 1
    apply List.flatMap_congr
    intro row hrow
    apply List.flatMap_congr
    intro p hp
    obtain ⟨hr, hg, hb⟩ := hch row hrow p hp
    have h := rgb565_bytes_eq p.r p.g p.b hr hg hb
    rw [h.1, h.2]
  · rw [convert_bgr565_eq]
    congr 1
    apply List.flatMap_congr
    intro row hrow
    apply List.flatMap_congr
    intro p hp
    obtain ⟨hr, hg, hb⟩ := hch row hrow p hp
    have h := bgr565_bytes_eq p.r p.g p.b hr hg hb
    rw [h.1, h.2]
  · intro alpha
    constructor
    · rw [convert_rgb565_eq, convert_rgb565_eq]
      congr 1
      rw [List.flatMap_map]
      apply List.flatMap_congr
      intro row hrow
      rw [List.flatMap_map]
    · rw [convert_bgr565_eq, convert_bgr565_eq]
      congr 1
      rw [List.flatMap_map]
      apply List.flatMap_congr
      intro row hrow
      rw [List.flatMap_map]

/-- C1 witness: the theorem applied to a concrete one-pixel grid. -/
theorem claim_C1_witness :
    convert_image_to_format [[⟨255, 128, 64, 9⟩]] "rgb565" =
      Except.ok (([[(⟨255, 128, 64, 9⟩ : Pixel)]] : List (List Pixel)).flatMap
        (fun row => row.flatMap (fun p =>
          [(((p.r >>> 3) <<< 11) ||| ((p.g >>> 2) <<< 5) ||| (p.b >>> 3)) % 256,
           (((p.r >>> 3) <<< 11) ||| ((p.g >>> 2) <<< 5) ||| (p.b >>> 3)) / 256]))) :=
  (claim_C1 [[⟨255, 128, 64, 9⟩]] (by decide)).1

/-- C3: the 1×1 grid with pixel (0x11, 0x22, 0x33, 0x44) encodes to
[0x44, 0x11, 0x22, 0x33] under `argb8888`, [0x11, 0x22, 0x33, 0x44] under
`rgba8888`, [0x11, 0x22, 0x33] under `rgb888` and [0x33, 0x22, 0x11]
under `bgr888`; in general these formats emit the stated channel order
per pixel in row-major order. -/
theorem claim_C3 :
    (convert_image_to_format [[⟨0x11, 0x22, 0x33, 0x44⟩]] "argb8888" =
      Except.ok [0x44, 0x11, 0x22, 0x33]) ∧
    (convert_image_to_format [[⟨0x11, 0x22, 0x33, 0x44⟩]] "rgba8888" =
      Except.ok [0x11, 0x22, 0x33, 0x44]) ∧
    (convert_image_to_format [[⟨0x11, 0x22, 0x33, 0x44⟩]] "rgb888" =
      Except.ok [0x11, 0x22, 0x33]) ∧
    (convert_image_to_format [[⟨0x11, 0x22, 0x33, 0x44⟩]] "bgr888" =
      Except.ok [0x33, 0x22, 0x11]) ∧
    (∀ pixels : List (List Pixel),
      convert_image_to_format pixels "argb8888" =
        Except.ok (pixels.flatMap (fun row => row.flatMap (fun p => [p.a, p.r, p.g, p.b]))) ∧
      convert_image_to_format pixels "rgba8888" =
        Except.ok (pixels.flatMap (fun row => row.flatMap (fun p => [p.r, p.g, p.b, p.a]))) ∧
      convert_image_to_format pixels "rgb888" =
        Except.ok (pixels.flatMap (fun row => row.flatMap (fun p => [p.r, p.g, p.b]))) ∧
      convert_image_to_format pixels "bgr888" =
        Except.ok (pixels.flatMap (fun row => row.flatMap (fun p => [p.b, p.g, p.r])))) :=
  ⟨rfl, rfl, rfl, rfl, fun pixels =>
    ⟨convert_argb8888_eq pixels, convert_rgba8888_eq pixels,
     convert_rgb888_eq pixels, convert_bgr888_eq pixels⟩⟩

/-- C5 counterexample: at the 2×1 scenario grid the rgb565 encoding is
not the byte sequence [0xE0, 0xF8, 0xE0, 0x07] stated by the claim: the
first pixel (255,0,0) packs to 0xF800, whose low-first emission is
0x00, 0xF8. -/
theorem claim_C5_counterexample :
    convert_image_to_format [[⟨255, 0, 0, 255⟩, ⟨0, 255, 0, 128⟩]] "rgb565" ≠
      Except.ok [0xE0, 0xF8, 0xE0, 0x07] := by
  intro h
  rw [convert_rgb565_eq] at h
  exact absurd (Except.ok.inj h) (by decide)

/-- C5 (amended): the 2×1 RGBA grid with pixels (255,0,0,255) and
(0,255,0,128) encodes under rgb565 to [0x00, 0xF8, 0xE0, 0x07], and the
`_IMG_PIXEL_DATA_SIZE` macro evaluates to `2 * 1 * 2 = 4`. -/
theorem claim_C5 :
    convert_image_to_format [[⟨255, 0, 0, 255⟩, ⟨0, 255, 0, 128⟩]] "rgb565" =
      Except.ok [0x00, 0xF8, 0xE0, 0x07] ∧
    FORMATS.lookup "rgb565" =
      some ⟨2, "VG_LITE_RGB565", "RGB565 (16-bit, 5-6-5)"⟩ ∧
    img_pixel_data_size 2 1 2 = 4 :=
  ⟨by rw [convert_rgb565_eq]; congr 1, rfl, rfl⟩

/-- C6: encoding fails with the unsupported-format error exactly when the
identifier is outside the closed six-element set; every identifier in the
set encodes successfully; and for identifiers outside the set the error
does not depend on the pixel data (it is raised before any per-pixel
work). -/
theorem claim_C6 (pixels : List (List Pixel)) (format_name : String) :
    (convert_image_to_format pixels format_name =
        Except.error ("Unsupported format: " ++ format_name) ↔
      format_name ∉ supported_formats) ∧
    (format_name ∈ supported_formats →
      ∃ bytes, convert_image_to_format pixels format_name = Except.ok bytes) ∧
    (format_name ∉ supported_formats →
      ∀ pixels₂ : List (List Pixel),
        convert_image_to_format pixels format_name =
          convert_image_to_format pixels₂ format_name) := by
  have key : ∀ px : List (List Pixel), format_name ∉ supported_formats →
      convert_image_to_format px format_name =
        Except.error ("Unsupported format: " ++ format_name) := by
    intro px hns
    have hnone : FORMATS.lookup format_name = none :=
      (lookup_eq_none_iff format_name).mpr hns
    unfold convert_image_to_format
    rw [hnone]
    rfl
  refine ⟨⟨?_, key pixels⟩, convert_ok_of_mem pixels format_name, ?_⟩
  · intro herr
    intro hmem
    obtain ⟨bytes, hok⟩ := convert_ok_of_mem pixels format_name hmem
    rw [hok] at herr
    exact Except.noConfusion herr
  · intro hns pixels₂
    rw [key pixels hns, key pixels₂ hns]

/-- C2: for every grid of `h ≥ 1` rows of `w ≥ 1` pixels and every
identifier in the registry, encoding succeeds and the byte list's length
is exactly `w * h * bytesPerPixel` of the looked-up format (2 for
rgb565/bgr565, 4 for argb8888/rgba8888, 3 for rgb888/bgr888). -/
theorem claim_C2 (pixels : List (List Pixel)) (w h : Nat) (format_name : String)
    (info : FormatInfo) (hw1 : 1 ≤ w) (hh1 : 1 ≤ h)
    (hlk : FORMATS.lookup format_name = some info)
    (hh : pixels.length = h) (hw : ∀ row ∈ pixels, row.length = w) :
    ∃ bytes, convert_image_to_format pixels format_name = Except.ok bytes ∧
      bytes.length = w * h * info.bytes_per_pixel := by
  rcases lookup_cases format_name info hlk with
    ⟨rfl, hbpp⟩ | ⟨rfl, hbpp⟩ | ⟨rfl, hbpp⟩ | ⟨rfl, hbpp⟩ | ⟨rfl, hbpp⟩ | ⟨rfl, hbpp⟩
  · refine ⟨_, convert_rgb565_eq pixels, ?_⟩
    have hlen := grid_flatMap_length pixels
      (fun p => [rgb_to_rgb565 p.r p.g p.b &&& 0xFF,
        (rgb_to_rgb565 p.r p.g p.b >>> 8) &&& 0xFF]) 2 w (fun p => rfl) hw
    rw [hbpp, hlen, hh]
  · refine ⟨_, convert_bgr565_eq pixels, ?_⟩
    have hlen := grid_flatMap_length pixels
      (fun p => [rgb_to_bgr565 p.r p.g p.b &&& 0xFF,
        (rgb_to_bgr565 p.r p.g p.b >>> 8) &&& 0xFF]) 2 w (fun p => rfl) hw
    rw [hbpp, hlen, hh]
  · refine ⟨_, convert_argb8888_eq pixels, ?_⟩
    have hlen := grid_flatMap_length pixels
      (fun p => [p.a, p.r, p.g, p.b]) 4 w (fun p => rfl) hw
    rw [hbpp, hlen, hh]
  · refine ⟨_, convert_rgba8888_eq pixels, ?_⟩
    have hlen := grid_flatMap_length pixels
      (fun p => [p.r, p.g, p.b, p.a]) 4 w (fun p => rfl) hw
    rw [hbpp, hlen, hh]
  · refine ⟨_, convert_rgb888_eq pixels, ?_⟩
    have hlen := grid_flatMap_length pixels
      (fun p => [p.r, p.g, p.b]) 3 w (fun p => rfl) hw
    rw [hbpp, hlen, hh]
  · refine ⟨_, convert_bgr888_eq pixels, ?_⟩
    have hlen := grid_flatMap_length pixels
      (fun p => [p.b, p.g, p.r]) 3 w (fun p => rfl) hw
    rw [hbpp, hlen, hh]

/-- C2 witness: a concrete 2×1 grid under `rgb888`. -/
theorem claim_C2_witness :
    ∃ bytes, convert_image_to_format [[⟨1, 2, 3, 4⟩, ⟨5, 6, 7, 8⟩]] "rgb888" =
        Except.ok bytes ∧
      bytes.length = 2 * 1 *
        (⟨3, "VG_LITE_RGB888", "RGB888 (24-bit, 8-8-8)"⟩ : FormatInfo).bytes_per_pixel :=
  claim_C2 [[⟨1, 2, 3, 4⟩, ⟨5, 6, 7, 8⟩]] 2 1 "rgb888"
    ⟨3, "VG_LITE_RGB888", "RGB888 (24-bit, 8-8-8)"⟩
    (by decide) (by decide) rfl rfl (by decide)

/-! ## Helper lemmas: ASCII restriction of the case mapping -/

/-- Scalar value of the lowercase sharp s. -/
theorem sharp_s_toNat : ('ß' : Char).toNat = 223 := rfl

/-- Scalar value of the capital sharp s. -/
theorem capital_sharp_s_toNat : ('ẞ' : Char).toNat = 7838 := rfl

/-- On ASCII characters the uppercase expansion is the single ASCII
uppercase character. -/
theorem py_upper_char_ascii (c : Char) (h : c.toNat < 128) :
    py_upper_char c = [Char.toUpper c] := by
  unfold py_upper_char
  rw [if_neg]
  intro he
  rw [he, sharp_s_toNat] at h
  omega

/-- On ASCII characters the lowercase expansion is the single ASCII
lowercase character. -/
theorem py_lower_char_ascii (c : Char) (h : c.toNat < 128) :
    py_lower_char c = [Char.toLower c] := by
  unfold py_lower_char
  rw [if_neg]
  intro he
  rw [he, capital_sharp_s_toNat] at h
  omega

/-- A `flatMap` of singletons is a `map`. -/
theorem flatMap_singleton_eq_map {α β : Type} (l : List α) (f : α → β) :
    l.flatMap (fun x => [f x]) = l.map f := by
  induction l with
  | nil => rfl
  | cons x xs ih => simp [List.flatMap_cons, ih]

/-- On all-ASCII strings, `py_upper` is the per-character map. -/
theorem py_upper_ascii (s : String) (h : s.data.all isASCIIChar = true) :
    py_upper s = strMap Char.toUpper s := by
  unfold py_upper strMap
  congr 1
  rw [← flatMap_singleton_eq_map s.data Char.toUpper]
  apply List.flatMap_congr
  intro c hc
  apply py_upper_char_ascii
  have hac := List.all_eq_true.mp h c hc
  simpa [isASCIIChar] using hac

/-- On all-ASCII strings, `py_lower` is the per-character map. -/
theorem py_lower_ascii (s : String) (h : s.data.all isASCIIChar = true) :
    py_lower s = strMap Char.toLower s := by
  unfold py_lower strMap
  congr 1
  rw [← flatMap_singleton_eq_map s.data Char.toLower]
  apply List.flatMap_congr
  intro c hc
  apply py_lower_char_ascii
  have hac := List.all_eq_true.mp h c hc
  simpa [isASCIIChar] using hac

/-- `Char.toUpper` stays in the ASCII range. -/
theorem toUpper_ascii (c : Char) (h : c.toNat < 128) :
    (Char.toUpper c).toNat < 128 := by
  rw [toUpper_toNat]
  split_ifs <;> omega

/-- `Char.toLower` stays in the ASCII range. -/
theorem toLower_ascii (c : Char) (h : c.toNat < 128) :
    (Char.toLower c).toNat < 128 := by
  rw [toLower_toNat]
  split_ifs <;> omega

/-- Replacement by underscore stays in the ASCII range. -/
theorem replChar_underscore_ascii (old c : Char) (h : c.toNat < 128) :
    (replChar old '_' c).toNat < 128 := by
  rw [replChar_toNat, underscore_toNat]
  split_ifs <;> omega

/-- A character map that preserves ASCII preserves all-ASCII strings. -/
theorem strMap_all_ascii (f : Char → Char) (s : String)
    (hf : ∀ c, c.toNat < 128 → (f c).toNat < 128)
    (h : s.data.all isASCIIChar = true) :
    (strMap f s).data.all isASCIIChar = true := by
  unfold strMap
  rw [List.all_eq_true]
  intro c hc
  rw [List.mem_map] at hc
  obtain ⟨d, hd, rfl⟩ := hc
  have hdn := List.all_eq_true.mp h d hd
  simp only [isASCIIChar, decide_eq_true_eq] at hdn ⊢
  exact hf d hdn

/-- On all-ASCII names, `macro_prefix` is a single character map. -/
theorem macro_prefix_strMap_ascii (s : String) (h : s.data.all isASCIIChar = true) :
    macro_prefix_str s =
      strMap (fun c => replChar ' ' '_' (replChar '-' '_' (Char.toUpper c))) s := by
  unfold macro_prefix_str py_replace
  rw [py_upper_ascii s h]
  simp only [strMap_strMap]

/-- On all-ASCII names, `array_name` is a single character map. -/
theorem array_name_strMap_ascii (s : String) (h : s.data.all isASCIIChar = true) :
    array_name s =
      strMap (fun c => replChar ' ' '_' (replChar '-' '_' (Char.toLower c))) s := by
  unfold array_name py_replace
  rw [py_lower_ascii s h]
  simp only [strMap_strMap]

/-- `macro_prefix` of an all-ASCII name is all-ASCII. -/
theorem macro_prefix_ascii (s : String) (h : s.data.all isASCIIChar = true) :
    (macro_prefix_str s).data.all isASCIIChar = true := by
  rw [macro_prefix_strMap_ascii s h]
  apply strMap_all_ascii _ _ _ h
  intro c hc
  exact replChar_underscore_ascii _ _ (replChar_underscore_ascii _ _ (toUpper_ascii c hc))

/-- `array_name` of an all-ASCII name is all-ASCII. -/
theorem array_name_ascii (s : String) (h : s.data.all isASCIIChar = true) :
    (array_name s).data.all isASCIIChar = true := by
  rw [array_name_strMap_ascii s h]
  apply strMap_all_ascii _ _ _ h
  intro c hc
  exact replChar_underscore_ascii _ _ (replChar_underscore_ascii _ _ (toLower_ascii c hc))

/-- C9 counterexample: for the raw name `"ẞ"` (capital sharp s, U+1E9E)
the program violates both halves of the claim: the macro prefix is `"ẞ"`
(upper-casing leaves U+1E9E unchanged) while upper-casing the array name
`"ß"` gives `"SS"`; and sanitizing the already-sanitized array name gives
a different pair than sanitizing the original. -/
theorem claim_C9_counterexample :
    macro_prefix_str "ẞ" ≠ py_upper (array_name "ẞ") ∧
    sanitize (array_name "ẞ") ≠ sanitize "ẞ" := by
  constructor
  · decide
  · decide

/-- C9 (amended): for every raw name consisting of ASCII characters the
sanitizer's macro prefix is the upper-casing of its array name, and
sanitization is idempotent: sanitizing either of its own outputs gives
the same pair as sanitizing the original name.  (Outside ASCII, Python's
Unicode case mapping breaks both properties, see the counterexample.) -/
theorem claim_C9 (base_name : String)
    (hascii : base_name.data.all isASCIIChar = true) :
    macro_prefix_str base_name = py_upper (array_name base_name) ∧
    sanitize (array_name base_name) = sanitize base_name ∧
    sanitize (macro_prefix_str base_name) = sanitize base_name := by
  have hA := array_name_strMap_ascii base_name hascii
  have hM := macro_prefix_strMap_ascii base_name hascii
  have hAa := array_name_ascii base_name hascii
  have hMa := macro_prefix_ascii base_name hascii
  refine ⟨?_, ?_, ?_⟩
  · rw [hM, py_upper_ascii _ hAa, hA, strMap_strMap]
    exact strMap_congr (fun c => sanitizeChar_macro_eq_upper_array c) base_name
  · unfold sanitize
    rw [macro_prefix_strMap_ascii _ hAa, array_name_strMap_ascii _ hAa, hA, hM,
      strMap_strMap, strMap_strMap]
    exact congrArg₂ Prod.mk
      (strMap_congr (fun c => sanitizeChar_macro_array c) base_name)
      (strMap_congr (fun c => sanitizeChar_array_array c) base_name)
  · unfold sanitize
    rw [macro_prefix_strMap_ascii _ hMa, array_name_strMap_ascii _ hMa, hA, hM,
      strMap_strMap, strMap_strMap]
    exact congrArg₂ Prod.mk
      (strMap_congr (fun c => sanitizeChar_macroPre_idem c) base_name)
      (strMap_congr (fun c => sanitizeChar_array_of_macroPre c) base_name)

/-- C9 witness: the amended claim at the concrete ASCII name
`"My-Logo 2"`. -/
theorem claim_C9_witness :
    ("My-Logo 2" : String).data.all isASCIIChar = true ∧
    (macro_prefix_str "My-Logo 2" = py_upper (array_name "My-Logo 2") ∧
     sanitize (array_name "My-Logo 2") = sanitize "My-Logo 2" ∧
     sanitize (macro_prefix_str "My-Logo 2") = sanitize "My-Logo 2") :=
  ⟨by decide, claim_C9 "My-Logo 2" (by decide)⟩

/-- C4: for every byte sequence of length `h * (w * bpp)` of bytes below
256 (with `w, h, bpp ≥ 1`), the array body has exactly `h` rows of
exactly `w * bpp` hex tokens each (the wrap stride is `w * bpp`, not a
fixed 16), each token is `0x` plus two uppercase hexadecimal digits,
tokens within a row are joined by `", "`, and the rendered body is the
`",\n    "`-intercalation of the rows. -/
theorem claim_C4 (data : List Nat) (w h bpp : Nat)
    (hw : 1 ≤ w) (hb : 1 ≤ bpp) (hh : 1 ≤ h)
    (hlen : data.length = h * (w * bpp)) (hbytes : ∀ x ∈ data, x < 256) :
    (chunkBytes (w * bpp) data).length = h ∧
    (∀ c ∈ chunkBytes (w * bpp) data, (c.map hexToken).length = w * bpp) ∧
    (∀ x ∈ data,
      hexToken x = ⟨['0', 'x', hexDigitChar (x / 16), hexDigitChar (x % 16)]⟩ ∧
      (format02X x).length = 2 ∧
      (format02X x).data.all isUpperHexDigit = true) ∧
    (∀ c ∈ chunkBytes (w * bpp) data,
      renderRow c = String.intercalate ", " (c.map hexToken)) ∧
    renderBody (w * bpp) data =
      "\n    " ++
        String.intercalate ",\n    " ((chunkBytes (w * bpp) data).map renderRow) := by
  have hstride : 1 ≤ w * bpp := Nat.mul_pos hw hb
  have hcount := chunkBytes_length (w * bpp) hstride h data hlen
  refine ⟨hcount, ?_, ?_, ?_, ?_⟩
  · intro c hc
    rw [List.length_map]
    exact chunkBytes_forall_length (w * bpp) hstride h data hlen c hc
  · intro x hx
    exact hexToken_byte x (hbytes x hx)
  · intro c hc
    rfl
  · apply renderBody_eq_intercalate
    intro hnil
    rw [hnil] at hcount
    simp at hcount
    omega

/-- C4 witness: a 1×1 grid at 2 bytes per pixel, data `[0xAB, 0x05]`. -/
theorem claim_C4_witness :
    (chunkBytes (1 * 2) [0xAB, 0x05]).length = 1 ∧
    (∀ c ∈ chunkBytes (1 * 2) [0xAB, 0x05], (c.map hexToken).length = 1 * 2) ∧
    (∀ x ∈ [0xAB, 0x05],
      hexToken x = ⟨['0', 'x', hexDigitChar (x / 16), hexDigitChar (x % 16)]⟩ ∧
      (format02X x).length = 2 ∧
      (format02X x).data.all isUpperHexDigit = true) ∧
    (∀ c ∈ chunkBytes (1 * 2) [0xAB, 0x05],
      renderRow c = String.intercalate ", " (c.map hexToken)) ∧
    renderBody (1 * 2) [0xAB, 0x05] =
      "\n    " ++
        String.intercalate ",\n    " ((chunkBytes (1 * 2) [0xAB, 0x05]).map renderRow) :=
  claim_C4 [0xAB, 0x05] 1 1 2 (by decide) (by decide) (by decide) (by decide) (by decide)

/-- C7 counterexample: at the invariant-violating input of three bytes
with stride 2 (e.g. width 1, bytes-per-pixel 2, height 1, so the valid
length would be 2), the renderer does not fail: it emits an array body,
with a partial final row. -/
theorem claim_C7_counterexample :
    renderBody 2 [0, 1, 2] = "\n    0x00, 0x01,\n    0x02" := by
  have h1 : chunkBytes 2 [0, 1, 2] = [[0, 1], [2]] := by
    rw [chunkBytes]
    norm_num
    rw [chunkBytes]
    norm_num
    rw [chunkBytes]
  have h2 : format02X 0 = ⟨['0', '0']⟩ := by
    rw [format02X_byte 0 (by norm_num)]; decide
  have h3 : format02X 1 = ⟨['0', '1']⟩ := by
    rw [format02X_byte 1 (by norm_num)]; decide
  have h4 : format02X 2 = ⟨['0', '2']⟩ := by
    rw [format02X_byte 2 (by norm_num)]; decide
  unfold renderBody
  rw [h1]
  unfold renderRow hexToken
  simp only [List.map_cons, List.map_nil]
  rw [h2, h3, h4]
  decide

/-- C7 (amended): the Header Renderer checks no length invariant; for
every stride ≥ 1 and every byte sequence, violating or not, it emits an
artifact: the chunked rows flatten back to exactly the input bytes, and
the rendered body is nonempty whenever the data is. -/
theorem claim_C7 (stride : Nat) (data : List Nat) (hs : 1 ≤ stride) :
    (chunkBytes stride data).flatten = data ∧
    (data ≠ [] → renderBody stride data ≠ "") := by
  refine ⟨chunkBytes_flatten stride hs data, ?_⟩
  intro hne
  unfold renderBody
  match hch : chunkBytes stride data with
  | [] =>
    exfalso
    have := chunkBytes_flatten stride hs data
    rw [hch] at this
    simp at this
    exact hne this
  | c :: cs =>
    intro h0
    have hd := congrArg String.data h0
    simp [String.data_append] at hd

/-- C7 witness: the amended claim at stride 2 and data `[9]`. -/
theorem claim_C7_witness :
    (chunkBytes 2 [9]).flatten = [9] ∧
    ([9] ≠ ([] : List Nat) → renderBody 2 [9] ≠ "") :=
  claim_C7 2 [9] (by decide)

/-- C8: extracting the component fields of the packed rgb565 (resp.
bgr565) value and re-shifting them to 8-bit positions recovers the
truncated channels, for all 8-bit inputs. -/
theorem claim_C8 (r g b : Nat) (hr : r ≤ 255) (hg : g ≤ 255) (hb : b ≤ 255) :
    (((rgb_to_rgb565 r g b >>> 11) &&& 0x1F) <<< 3 = (r >>> 3) <<< 3 ∧
     ((rgb_to_rgb565 r g b >>> 5) &&& 0x3F) <<< 2 = (g >>> 2) <<< 2 ∧
     (rgb_to_rgb565 r g b &&& 0x1F) <<< 3 = (b >>> 3) <<< 3) ∧
    (((rgb_to_bgr565 r g b >>> 11) &&& 0x1F) <<< 3 = (b >>> 3) <<< 3 ∧
     ((rgb_to_bgr565 r g b >>> 5) &&& 0x3F) <<< 2 = (g >>> 2) <<< 2 ∧
     (rgb_to_bgr565 r g b &&& 0x1F) <<< 3 = (r >>> 3) <<< 3) := by
  have hA := rgb_to_rgb565_eq r g b hr hg hb
  have hB := rgb_to_bgr565_eq r g b hr hg hb
  have hm32 : ∀ x : Nat, x &&& 0x1F = x % 32 := fun x => by
    have := mask_mod x 5; norm_num at this; exact this
  have hm64 : ∀ x : Nat, x &&& 0x3F = x % 64 := fun x => by
    have := mask_mod x 6; norm_num at this; exact this
  have hs11 : ∀ x : Nat, x >>> 11 = x / 2048 := fun x => by
    rw [Nat.shiftRight_eq_div_pow]
  have hs5 : ∀ x : Nat, x >>> 5 = x / 32 := fun x => by
    rw [Nat.shiftRight_eq_div_pow]
  refine ⟨⟨?_, ?_, ?_⟩, ⟨?_, ?_, ?_⟩⟩
  · apply congrArg (fun t => t <<< 3)
    clear hB
    rw [hA, hs11, hm32, shiftRight3_eq]
    omega
  · apply congrArg (fun t => t <<< 2)
    clear hB
    rw [hA, hs5, hm64, shiftRight2_eq]
    omega
  · apply congrArg (fun t => t <<< 3)
    clear hB
    rw [hA, hm32, shiftRight3_eq]
    omega
  · apply congrArg (fun t => t <<< 3)
    clear hA
    rw [hB, hs11, hm32, shiftRight3_eq]
    omega
  · apply congrArg (fun t => t <<< 2)
    clear hA
    rw [hB, hs5, hm64, shiftRight2_eq]
    omega
  · apply congrArg (fun t => t <<< 3)
    clear hA
    rw [hB, hm32, shiftRight3_eq]
    omega

/-- C8 witness: the round-trip at the concrete pixel (200, 100, 50). -/
theorem claim_C8_witness :
    (((rgb_to_rgb565 200 100 50 >>> 11) &&& 0x1F) <<< 3 = (200 >>> 3) <<< 3 ∧
     ((rgb_to_rgb565 200 100 50 >>> 5) &&& 0x3F) <<< 2 = (100 >>> 2) <<< 2 ∧
     (rgb_to_rgb565 200 100 50 &&& 0x1F) <<< 3 = (50 >>> 3) <<< 3) ∧
    (((rgb_to_bgr565 200 100 50 >>> 11) &&& 0x1F) <<< 3 = (50 >>> 3) <<< 3 ∧
     ((rgb_to_bgr565 200 100 50 >>> 5) &&& 0x3F) <<< 2 = (100 >>> 2) <<< 2 ∧
     (rgb_to_bgr565 200 100 50 &&& 0x1F) <<< 3 = (200 >>> 3) <<< 3) :=
  claim_C8 200 100 50 (by decide) (by decide) (by decide)

/-- C10: for 8-bit input channels, every byte emitted by the encoder is
below 256, under every supported format. -/
theorem claim_C10 (pixels : List (List Pixel)) (format_name : String) (bytes : List Nat)
    (hch : ∀ row ∈ pixels, ∀ p ∈ row, p.r ≤ 255 ∧ p.g ≤ 255 ∧ p.b ≤ 255 ∧ p.a ≤ 255)
    (hok : convert_image_to_format pixels format_name = Except.ok bytes) :
    ∀ x ∈ bytes, x < 256 := by
  have hmask : ∀ v : Nat, v &&& 0xFF < 256 := fun v => by
    rw [low_byte_eq]; exact Nat.mod_lt _ (by norm_num)
  by_cases hmem : format_name ∈ supported_formats
  · simp [supported_formats] at hmem
    rcases hmem with rfl | rfl | rfl | rfl | rfl | rfl
    · rw [convert_rgb565_eq] at hok
      obtain rfl := (Except.ok.inj hok).symm
      intro x hx
      simp only [List.mem_flatMap] at hx
      obtain ⟨row, hrow, hx⟩ := hx
      obtain ⟨p, hp, hx⟩ := hx
      simp only [List.mem_cons, List.not_mem_nil, or_false] at hx
      rcases hx with rfl | rfl
      · exact hmask _
      · exact hmask _
    · rw [convert_bgr565_eq] at hok
      obtain rfl := (Except.ok.inj hok).symm
      intro x hx
      simp only [List.mem_flatMap] at hx
      obtain ⟨row, hrow, hx⟩ := hx
      obtain ⟨p, hp, hx⟩ := hx
      simp only [List.mem_cons, List.not_mem_nil, or_false] at hx
      rcases hx with rfl | rfl
      · exact hmask _
      · exact hmask _
    · rw [convert_argb8888_eq] at hok
      obtain rfl := (Except.ok.inj hok).symm
      intro x hx
      simp only [List.mem_flatMap] at hx
      obtain ⟨row, hrow, hx⟩ := hx
      obtain ⟨p, hp, hx⟩ := hx
      obtain ⟨h1, h2, h3, h4⟩ := hch row hrow p hp
      simp only [List.mem_cons, List.not_mem_nil, or_false] at hx
      rcases hx with rfl | rfl | rfl | rfl
      · omega
      · omega
      · omega
      · omega
    · rw [convert_rgba8888_eq] at hok
      obtain rfl := (Except.ok.inj hok).symm
      intro x hx
      simp only [List.mem_flatMap] at hx
      obtain ⟨row, hrow, hx⟩ := hx
      obtain ⟨p, hp, hx⟩ := hx
      obtain ⟨h1, h2, h3, h4⟩ := hch row hrow p hp
      simp only [List.mem_cons, List.not_mem_nil, or_false] at hx
      rcases hx with rfl | rfl | rfl | rfl
      · omega
      · omega
      · omega
      · omega
    · rw [convert_rgb888_eq] at hok
      obtain rfl := (Except.ok.inj hok).symm
      intro x hx
      simp only [List.mem_flatMap] at hx
      obtain ⟨row, hrow, hx⟩ := hx
      obtain ⟨p, hp, hx⟩ := hx
      obtain ⟨h1, h2, h3, h4⟩ := hch row hrow p hp
      simp only [List.mem_cons, List.not_mem_nil, or_false] at hx
      rcases hx with rfl | rfl | rfl
      · omega
      · omega
      · omega
    · rw [convert_bgr888_eq] at hok
      obtain rfl := (Except.ok.inj hok).symm
      intro x hx
      simp only [List.mem_flatMap] at hx
      obtain ⟨row, hrow, hx⟩ := hx
      obtain ⟨p, hp, hx⟩ := hx
      obtain ⟨h1, h2, h3, h4⟩ := hch row hrow p hp
      simp only [List.mem_cons, List.not_mem_nil, or_false] at hx
      rcases hx with rfl | rfl | rfl
      · omega
      · omega
      · omega
  · exfalso
    have hnone : FORMATS.lookup format_name = none :=
      (lookup_eq_none_iff format_name).mpr hmem
    unfold convert_image_to_format at hok
    rw [hnone] at hok
    exact Except.noConfusion hok

/-- C10 witness: the bound at a concrete 1×1 white pixel under rgb565. -/
theorem claim_C10_witness :
    convert_image_to_format [[⟨255, 255, 255, 255⟩]] "rgb565" =
      Except.ok [0xFF, 0xFF] ∧ (0xFF : Nat) < 256 :=
  ⟨by rw [convert_rgb565_eq]; congr 1,
   claim_C10 [[⟨255, 255, 255, 255⟩]] "rgb565" [0xFF, 0xFF] (by decide)
     (by rw [convert_rgb565_eq]; congr 1) 0xFF (by decide)⟩

end ImageToCArray
